import Mathlib

/-
Shallow embedding of the CHIP-8 virtual-machine core from src/src/lib.rs
(saturn597/chip8-emulator-in-rust).  Machine integers are modelled as Nat
with explicit reductions where the Rust code wraps (u8 arithmetic mod 256,
u16 program counter mod 65536, the 12-bit index register mod 4096).  Rust
panics (out-of-bounds slice indexing, unrecognized opcodes, popping an
empty stack) are modelled by `Except Err`.  Wall-clock reads and the random
byte of opcode 0xCxnn are supplied by an external oracle `Ext`, mirroring
the fact that the core reads `Instant::now()` and `thread_rng()` there.
-/

namespace Chip8Emu

/-- src: `enum Pixel { On, Off }`. -/
inductive Pixel where
  | on
  | off
deriving DecidableEq, Repr

/-- src: `Pixel::flip`. -/
def Pixel.flip (p : Pixel) : Pixel :=
  if p = Pixel.on then Pixel.off else Pixel.on

/-- src: `enum Key { Up, Down }`. -/
inductive Key where
  | up
  | down
deriving DecidableEq, Repr

/-- The ways `emulate_cycle` can panic: an unrecognized instruction word
(the panic message carries the word), popping an empty stack in `ret`, and
out-of-bounds slice indexing (`ram`, `keys`). -/
inductive Err where
  | unknownInstr (instr : Nat)
  | stackUnderflow
  | indexOutOfBounds
deriving DecidableEq, Repr

/-- Pointwise update of a Nat-valued store (array write). -/
def updFn (f : Nat → Nat) (k val : Nat) : Nat → Nat :=
  fun a => if a = k then val else f a

/-- Pointwise update of the pixel grid at column x, row y
(src: `self.pixels[x][y] = ...`). -/
def updPix (p : Nat → Nat → Pixel) (x y : Nat) (val : Pixel) : Nat → Nat → Pixel :=
  fun a b => if a = x ∧ b = y then val else p a b

/-- Pointwise update of the key-state array. -/
def updKey (f : Nat → Key) (k : Nat) (val : Key) : Nat → Key :=
  fun a => if a = k then val else f a

/-- src: `const INSTRUCTIONS_START: u16 = 0x200`. -/
def INSTRUCTIONS_START : Nat := 0x200

/-- src: `const SCREEN_WIDTH: usize = 64`. -/
def SCREEN_WIDTH : Nat := 64

/-- src: `const SCREEN_HEIGHT: usize = 32`. -/
def SCREEN_HEIGHT : Nat := 32

/-- src: `const FONT: [u8; 80]`, 16 glyphs of 5 bytes each. -/
def FONT : List Nat :=
  [0xf0, 0x90, 0x90, 0x90, 0xf0,
   0x20, 0x60, 0x20, 0x20, 0x70,
   0xf0, 0x10, 0xf0, 0x80, 0xf0,
   0xf0, 0x10, 0xf0, 0x10, 0xf0,
   0x90, 0x90, 0xf0, 0x10, 0x10,
   0xf0, 0x80, 0xf0, 0x10, 0xf0,
   0xf0, 0x80, 0xf0, 0x90, 0xf0,
   0xf0, 0x10, 0x20, 0x40, 0x40,
   0xf0, 0x90, 0xf0, 0x90, 0xf0,
   0xf0, 0x90, 0xf0, 0x10, 0xf0,
   0xf0, 0x90, 0xf0, 0x90, 0x90,
   0xe0, 0x90, 0xe0, 0x90, 0xe0,
   0xf0, 0x80, 0x80, 0x80, 0xf0,
   0xe0, 0x90, 0x90, 0x90, 0xe0,
   0xf0, 0x80, 0xf0, 0x80, 0xf0,
   0xf0, 0x80, 0xf0, 0x80, 0x80]

/-- src: `const FONT_START: usize = 0x50`. -/
def FONT_START : Nat := 0x50

/-- The machine state, src: `struct Chip8`.  The delay timer's
`start_count` is kept here; its `start_instant` is a wall-clock value that
lives outside the embedding (reads of the timer go through the `Ext`
oracle). -/
structure Chip8 where
  ram : Nat → Nat
  stack : List Nat
  pixels : Nat → Nat → Pixel
  v : Nat → Nat
  i : Nat
  pc : Nat
  keys : Nat → Key
  delay_timer : Nat
  sound_timer : Nat
  draw_queue : List (Nat × Nat × Pixel)

/-- External inputs consumed during one cycle: `rand` is the value
produced by `thread_rng().gen_range(0, 255)` (a value in [0,255)), and
`ticks` is the number of 60Hz ticks elapsed since the delay timer was last
started, i.e. `floor(elapsed_ms * 60 / 1000)` as computed from
`Instant::now()` in `Timer::get_value`. -/
structure Ext where
  rand : Nat
  ticks : Nat

/-- src: `Chip8::fetch_at`.  Reads `ram[addr]` and `ram[addr + 1]`
(big-endian); the Rust slice indexing panics as soon as an index is ≥ 4096,
which happens exactly when addr + 1 ≥ 4096. -/
def fetch_at (s : Chip8) (addr : Nat) : Except Err Nat :=
  if addr + 1 < 4096 then Except.ok (s.ram addr * 256 + s.ram (addr + 1))
  else Except.error Err.indexOutOfBounds

/-- src: `Chip8::fetch`. -/
def fetch (s : Chip8) : Except Err Nat :=
  fetch_at s s.pc

/-- src: `Chip8::reg_get_for_math`, the x and y nibbles
`(instr & 0x0f00) >> 8` and `(instr & 0x00f0) >> 4`. -/
def reg_get_for_math (instr : Nat) : Nat × Nat :=
  (instr / 256 % 16, instr / 16 % 16)

/-- src: `Chip8::add_const_to_v` (opcode 7xnn), `wrapping_add`. -/
def add_const_to_v (s : Chip8) (instr : Nat) : Chip8 :=
  let reg := instr / 256 % 16
  let n := instr % 256
  { s with v := updFn s.v reg ((s.v reg + n) % 256), pc := (s.pc + 2) % 65536 }

/-- src: `Chip8::add_reg_to_i` (opcode Fx1E): u16 addition of Vx into I,
VF := 1 when the sum exceeded 4095 else 0, then I reduced mod 4096. -/
def add_reg_to_i (s : Chip8) (instr : Nat) : Chip8 :=
  let reg := instr / 256 % 16
  let i1 := (s.i + s.v reg) % 65536
  let v1 := if 4095 < i1 then updFn s.v 15 1 else updFn s.v 15 0
  { s with i := i1 % 4096, v := v1, pc := (s.pc + 2) % 65536 }

/-- src: `Chip8::clear_screen` (opcode 00E0). -/
def clear_screen (s : Chip8) (_instr : Nat) : Chip8 :=
  { s with pixels := fun _ _ => Pixel.off, pc := (s.pc + 2) % 65536 }

/-- The mutable state threaded through the two nested loops of
`Chip8::draw_sprite`: the pixel grid, the collision flag, and the pending
render delta. -/
structure DrawState where
  pixels : Nat → Nat → Pixel
  collision : Bool
  draw_queue : List (Nat × Nat × Pixel)

/-- The body of the inner `for j in 0..8` loop of `Chip8::draw_sprite` for
one sprite row: for bit column j (most significant first,
`byte & (1 << (7-j))`), columns clipped at the right screen edge, flip the
pixel, record a collision when it was on, and push the new pixel value on
the delta queue. -/
def draw_col_step (byte x_start y : Nat) (st : DrawState) (j : Nat) : DrawState :=
  let x := x_start + j
  if SCREEN_WIDTH ≤ x then st
  else
    let needs_flip := Nat.testBit byte (7 - j)
    if needs_flip then
      let pixel := st.pixels x y
      let collision := if pixel = Pixel.on then true else st.collision
      let newPix := pixel.flip
      { pixels := updPix st.pixels x y newPix,
        collision := collision,
        draw_queue := st.draw_queue ++ [(x, y, newPix)] }
    else st

/-- The inner `for j in 0..8` loop of `Chip8::draw_sprite`. -/
def draw_cols (byte x_start y : Nat) (st : DrawState) : DrawState :=
  (List.range 8).foldl (draw_col_step byte x_start y) st

/-- The body of the outer `for i in 0..n` loop of `Chip8::draw_sprite`:
read the sprite byte at I + i, skip rows clipped at the bottom screen
edge, otherwise run the column loop.  `ram` is read-only here; the bounds
check on the ram read is done by the caller (`draw_sprite`). -/
def draw_row_step (ram : Nat → Nat) (mem_start x_start y_start : Nat)
    (st : DrawState) (i : Nat) : DrawState :=
  let byte := ram (mem_start + i)
  let y := y_start + i
  if SCREEN_HEIGHT ≤ y then st
  else draw_cols byte x_start y st

/-- The outer `for i in 0..n` loop of `Chip8::draw_sprite`. -/
def draw_loop (ram : Nat → Nat) (mem_start x_start y_start n : Nat) (st : DrawState) :
    DrawState :=
  (List.range n).foldl (draw_row_step ram mem_start x_start y_start) st

/-- src: `Chip8::draw_sprite` (opcode Dxyn).  The Rust loop reads
`ram[mem_start + i]` at the top of every iteration (before the row-clipping
check), so it panics out of bounds as soon as some i < n has
mem_start + i ≥ 4096, i.e. exactly when n > 0 and mem_start + n > 4096;
since the panic aborts the whole cycle, that check is hoisted here.
After the loops, VF := 1 if any collision occurred else 0, written last. -/
def draw_sprite (s : Chip8) (instr : Nat) : Except Err Chip8 :=
  let x_reg := instr / 256 % 16
  let y_reg := instr / 16 % 16
  let n := instr % 16
  let x_start := s.v x_reg
  let y_start := s.v y_reg
  let mem_start := s.i
  if 0 < n ∧ 4096 < mem_start + n then Except.error Err.indexOutOfBounds
  else
    let st := draw_loop s.ram mem_start x_start y_start n
      ⟨s.pixels, false, s.draw_queue⟩
    Except.ok { s with
      pixels := st.pixels,
      v := updFn s.v 15 (if st.collision then 1 else 0),
      draw_queue := st.draw_queue,
      pc := (s.pc + 2) % 65536 }

/-- src: `Chip8::get_delay_timer` (opcode Fx07).  `Timer::get_value` is
`start_count.saturating_sub(ticks.floor() as u8)`; the tick count computed
from the wall clock comes from the oracle, and the `as u8` cast of the
floored f32 saturates at 255. -/
def get_delay_timer (e : Ext) (s : Chip8) (instr : Nat) : Chip8 :=
  let reg := instr / 256 % 16
  { s with v := updFn s.v reg (s.delay_timer - min e.ticks 255),
           pc := (s.pc + 2) % 65536 }

/-- src: `Chip8::jump` (opcode 1nnn). -/
def jump (s : Chip8) (instr : Nat) : Chip8 :=
  { s with pc := instr % 4096 }

/-- src: `Chip8::jump_subroutine` (opcode 2nnn); `Vec::push` appends at the
end, so the top of the stack is the last list element. -/
def jump_subroutine (s : Chip8) (instr : Nat) : Chip8 :=
  { s with stack := s.stack ++ [s.pc], pc := instr % 4096 }

/-- src: `Chip8::rand` (opcode Cxnn); the random byte is
`gen_range(0, 255) as u8`, a value in [0, 255), supplied by the oracle. -/
def rand (e : Ext) (s : Chip8) (instr : Nat) : Chip8 :=
  let reg := instr / 256 % 16
  let val := instr % 256
  { s with v := updFn s.v reg (val &&& e.rand % 255), pc := (s.pc + 2) % 65536 }

/-- src: `Chip8::reg_add` (opcode 8xy4): `overflowing_add` on u8, VF is
written with the carry first, the destination register second. -/
def reg_add (s : Chip8) (instr : Nat) : Chip8 :=
  let p := reg_get_for_math instr
  let val1 := s.v p.1
  let val2 := s.v p.2
  let sum := (val1 + val2) % 256
  let overflow := 255 < val1 + val2
  let v1 := updFn s.v 15 (if overflow then 1 else 0)
  let v2 := updFn v1 p.1 sum
  { s with v := v2, pc := (s.pc + 2) % 65536 }

/-- src: `Chip8::reg_and` (opcode 8xy2). -/
def reg_and (s : Chip8) (instr : Nat) : Chip8 :=
  let p := reg_get_for_math instr
  { s with v := updFn s.v p.1 (s.v p.1 &&& s.v p.2), pc := (s.pc + 2) % 65536 }

/-- src: `Chip8::reg_load` (opcode Fx65): `for reg in 0..count` copies
`ram[I + reg]` into `v[reg]`; the ram indexing panics out of bounds exactly
when I + count > 4096 (count = x + 1 ≥ 1), and I is not modified. -/
def reg_load (s : Chip8) (instr : Nat) : Except Err Chip8 :=
  let count := instr / 256 % 16 + 1
  if 4096 < s.i + count then Except.error Err.indexOutOfBounds
  else
    Except.ok { s with
      v := (List.range count).foldl (fun vacc reg => updFn vacc reg (s.ram (s.i + reg))) s.v,
      pc := (s.pc + 2) % 65536 }

/-- src: `Chip8::reg_set` (opcode 8xy0). -/
def reg_set (s : Chip8) (instr : Nat) : Chip8 :=
  let p := reg_get_for_math instr
  { s with v := updFn s.v p.1 (s.v p.2), pc := (s.pc + 2) % 65536 }

/-- src: `Chip8::reg_subtract` (opcode 8xy5): `overflowing_sub` on u8
(wraps mod 256), VF := 0 on borrow else 1, written before the destination
register. -/
def reg_subtract (s : Chip8) (instr : Nat) : Chip8 :=
  let p := reg_get_for_math instr
  let val1 := s.v p.1
  let val2 := s.v p.2
  let diff := (val1 + 256 - val2) % 256
  let overflow := val1 < val2
  let v1 := updFn s.v 15 (if overflow then 0 else 1)
  let v2 := updFn v1 p.1 diff
  { s with v := v2, pc := (s.pc + 2) % 65536 }

/-- src: `Chip8::ret` (opcode 00EE): `Vec::pop` takes the last element;
popping an empty stack panics. -/
def ret (s : Chip8) (_instr : Nat) : Except Err Chip8 :=
  match s.stack.getLast? with
  | none => Except.error Err.stackUnderflow
  | some addr => Except.ok { s with stack := s.stack.dropLast, pc := (addr + 2) % 65536 }

/-- src: `Chip8::set_bcd` (opcode Fx33): decimal digits of Vx written at
ram[I], ram[I+1], ram[I+2].  The slice writes panic out of bounds exactly
when I + 2 ≥ 4096; the panic aborts the cycle, so the check is hoisted. -/
def set_bcd (s : Chip8) (instr : Nat) : Except Err Chip8 :=
  let reg := instr / 256 % 16
  let val := s.v reg
  let hundreds := val / 100
  let tens := (val - 100 * hundreds) / 10
  let ones := val - 100 * hundreds - 10 * tens
  if s.i + 2 < 4096 then
    Except.ok { s with
      ram := updFn (updFn (updFn s.ram s.i hundreds) (s.i + 1) tens) (s.i + 2) ones,
      pc := (s.pc + 2) % 65536 }
  else Except.error Err.indexOutOfBounds

/-- src: `Chip8::set_char_location` (opcode Fx29):
I := FONT_START + Vx * 5, cast `as u16`. -/
def set_char_location (s : Chip8) (instr : Nat) : Chip8 :=
  let reg := instr / 256 % 16
  { s with i := (FONT_START + s.v reg * 5) % 65536, pc := (s.pc + 2) % 65536 }

/-- src: `Chip8::set_delay_timer` (opcode Fx15) calls
`Timer::start(self.v[reg])`, which stores the count and a fresh
`Instant::now()` (the latter lives outside the embedding). -/
def set_delay_timer (s : Chip8) (instr : Nat) : Chip8 :=
  let reg := instr / 256 % 16
  { s with delay_timer := s.v reg, pc := (s.pc + 2) % 65536 }

/-- src: `Chip8::set_index` (opcode Annn). -/
def set_index (s : Chip8) (instr : Nat) : Chip8 :=
  { s with i := instr % 4096, pc := (s.pc + 2) % 65536 }

/-- src: `Chip8::set_register` (opcode 6xnn). -/
def set_register (s : Chip8) (instr : Nat) : Chip8 :=
  let reg := instr / 256 % 16
  { s with v := updFn s.v reg (instr % 256), pc := (s.pc + 2) % 65536 }

/-- src: `Chip8::set_sound_timer` (opcode Fx18). -/
def set_sound_timer (s : Chip8) (instr : Nat) : Chip8 :=
  let reg := instr / 256 % 16
  { s with sound_timer := s.v reg, pc := (s.pc + 2) % 65536 }

/-- src: `Chip8::shift_right` (opcode 8xy6): VF := 1 & Vx first,
then Vx := Vx >> 1. -/
def shift_right (s : Chip8) (instr : Nat) : Chip8 :=
  let reg := instr / 256 % 16
  let val := s.v reg
  let v1 := updFn s.v 15 (val % 2)
  let v2 := updFn v1 reg (val / 2)
  { s with v := v2, pc := (s.pc + 2) % 65536 }

/-- src: `Chip8::skip_if_equal` (opcode 3xnn). -/
def skip_if_equal (s : Chip8) (instr : Nat) : Chip8 :=
  let reg := instr / 256 % 16
  let n := instr % 256
  let incr := if s.v reg = n then 4 else 2
  { s with pc := (s.pc + incr) % 65536 }

/-- src: `Chip8::skip_if_regs_unequal` (opcode 9xy0). -/
def skip_if_regs_unequal (s : Chip8) (instr : Nat) : Chip8 :=
  let p := reg_get_for_math instr
  let incr := if s.v p.1 ≠ s.v p.2 then 4 else 2
  { s with pc := (s.pc + incr) % 65536 }

/-- src: `Chip8::skip_if_unequal` (opcode 4xnn). -/
def skip_if_unequal (s : Chip8) (instr : Nat) : Chip8 :=
  let reg := instr / 256 % 16
  let n := instr % 256
  let incr := if s.v reg = n then 2 else 4
  { s with pc := (s.pc + incr) % 65536 }

/-- src: `Chip8::test_key`: reads `keys[key_index]` (panicking when the
index is ≥ 16), then forces that key back to Up, returning the old state
(the deliberate press-consumed-on-read behavior). -/
def test_key (s : Chip8) (key_index : Nat) : Except Err (Chip8 × Key) :=
  if key_index < 16 then
    Except.ok ({ s with keys := updKey s.keys key_index Key.up }, s.keys key_index)
  else Except.error Err.indexOutOfBounds

/-- src: `Chip8::skip_if_key` (opcode Ex9E): skip (+4) when key Vx was
Down, else +2; the key is consumed either way. -/
def skip_if_key (s : Chip8) (instr : Nat) : Except Err Chip8 :=
  let reg := instr / 256 % 16
  match test_key s (s.v reg) with
  | Except.error e => Except.error e
  | Except.ok (s1, key) =>
      let incr := match key with | Key.up => 2 | Key.down => 4
      Except.ok { s1 with pc := (s1.pc + incr) % 65536 }

/-- src: `Chip8::skip_if_not_key` (opcode ExA1): skip (+4) when key Vx was
Up, else +2; the key is consumed either way. -/
def skip_if_not_key (s : Chip8) (instr : Nat) : Except Err Chip8 :=
  let reg := instr / 256 % 16
  match test_key s (s.v reg) with
  | Except.error e => Except.error e
  | Except.ok (s1, key) =>
      let incr := match key with | Key.up => 4 | Key.down => 2
      Except.ok { s1 with pc := (s1.pc + incr) % 65536 }

/-- The decode/dispatch part of `Chip8::emulate_cycle`: match on the high
nibble `(instr & 0xf000) >> 12` (= instr / 4096 for 16-bit words), with
secondary dispatch on the low nibble (families 8 and 9), the low byte
(families E and F) or the low 12 bits (family 0); every hole in the match
is a panic carrying the instruction word. -/
def exec (e : Ext) (s : Chip8) (instr : Nat) : Except Err Chip8 :=
  if instr / 4096 = 0x0 then
    if instr % 4096 = 0x0e0 then Except.ok (clear_screen s instr)
    else if instr % 4096 = 0x0ee then ret s instr
    else Except.error (Err.unknownInstr instr)
  else if instr / 4096 = 0x1 then Except.ok (jump s instr)
  else if instr / 4096 = 0x2 then Except.ok (jump_subroutine s instr)
  else if instr / 4096 = 0x3 then Except.ok (skip_if_equal s instr)
  else if instr / 4096 = 0x4 then Except.ok (skip_if_unequal s instr)
  else if instr / 4096 = 0x6 then Except.ok (set_register s instr)
  else if instr / 4096 = 0x7 then Except.ok (add_const_to_v s instr)
  else if instr / 4096 = 0x8 then
    if instr % 16 = 0x0 then Except.ok (reg_set s instr)
    else if instr % 16 = 0x2 then Except.ok (reg_and s instr)
    else if instr % 16 = 0x4 then Except.ok (reg_add s instr)
    else if instr % 16 = 0x5 then Except.ok (reg_subtract s instr)
    else if instr % 16 = 0x6 then Except.ok (shift_right s instr)
    else Except.error (Err.unknownInstr instr)
  else if instr / 4096 = 0x9 then
    if instr % 16 = 0 then Except.ok (skip_if_regs_unequal s instr)
    else Except.error (Err.unknownInstr instr)
  else if instr / 4096 = 0xa then Except.ok (set_index s instr)
  else if instr / 4096 = 0xc then Except.ok (rand e s instr)
  else if instr / 4096 = 0xd then draw_sprite s instr
  else if instr / 4096 = 0xe then
    if instr % 256 = 0x9e then skip_if_key s instr
    else if instr % 256 = 0xa1 then skip_if_not_key s instr
    else Except.error (Err.unknownInstr instr)
  else if instr / 4096 = 0xf then
    if instr % 256 = 0x07 then Except.ok (get_delay_timer e s instr)
    else if instr % 256 = 0x15 then Except.ok (set_delay_timer s instr)
    else if instr % 256 = 0x18 then Except.ok (set_sound_timer s instr)
    else if instr % 256 = 0x1e then Except.ok (add_reg_to_i s instr)
    else if instr % 256 = 0x29 then Except.ok (set_char_location s instr)
    else if instr % 256 = 0x33 then set_bcd s instr
    else if instr % 256 = 0x65 then reg_load s instr
    else Except.error (Err.unknownInstr instr)
  else Except.error (Err.unknownInstr instr)

/-- src: `Chip8::emulate_cycle`: fetch the word at PC, then dispatch. -/
def emulate_cycle (e : Ext) (s : Chip8) : Except Err Chip8 :=
  match fetch s with
  | Except.error err => Except.error err
  | Except.ok instr => exec e s instr

/-- One checked ram store (`ram[loc] = val` on the `[u8; 4096]` array,
panicking when loc ≥ 4096). -/
def ram_write (ram : Nat → Nat) (loc val : Nat) : Except Err (Nat → Nat) :=
  if loc < 4096 then Except.ok (updFn ram loc val) else Except.error Err.indexOutOfBounds

/-- The copy loops of `Chip8::initialize`
(`for i in 0..src.len() { ram[i + start] = src[i] }`), written by
recursion on the source bytes: each step stores one byte and moves one
address up, stopping with the panic of the first out-of-bounds store. -/
def copy_to_ram (ram : Nat → Nat) (start : Nat) : List Nat → Except Err (Nat → Nat)
  | [] => Except.ok ram
  | b :: rest =>
      match ram_write ram start b with
      | Except.error e => Except.error e
      | Except.ok r1 => copy_to_ram r1 (start + 1) rest

/-- src: `Chip8::initialize`: zeroed ram, the rom copied at 0x200 (with no
length validation - the marked TODO), then the font copied at 0x50; fresh
registers, empty stack, all pixels off, PC = 0x200, all keys up, zeroed
timers, empty draw queue. -/
def init (rom : List Nat) : Except Err Chip8 :=
  match copy_to_ram (fun _ => 0) INSTRUCTIONS_START rom with
  | Except.error e => Except.error e
  | Except.ok ram1 =>
      match copy_to_ram ram1 FONT_START FONT with
      | Except.error e => Except.error e
      | Except.ok ram2 =>
          Except.ok { ram := ram2, stack := [], pixels := fun _ _ => Pixel.off,
                      v := fun _ => 0, i := 0, pc := INSTRUCTIONS_START,
                      keys := fun _ => Key.up, delay_timer := 0, sound_timer := 0,
                      draw_queue := [] }

/-- States reachable from a successful initialization by successful engine
cycles (with arbitrary oracle inputs each cycle). -/
inductive Reachable : Chip8 → Prop where
  | init : ∀ rom s, Chip8Emu.init rom = Except.ok s → Reachable s
  | step : ∀ e s s', Reachable s → emulate_cycle e s = Except.ok s' → Reachable s'

/-- Modelled from the spec: the 26 opcode patterns of the table in §4.2 of
spec.md (for comparison with the decoder of `emulate_cycle`). -/
def specRecognized (instr : Nat) : Prop :=
  instr = 0x00e0 ∨ instr = 0x00ee ∨
  instr / 4096 = 0x1 ∨ instr / 4096 = 0x2 ∨ instr / 4096 = 0x3 ∨
  instr / 4096 = 0x4 ∨ instr / 4096 = 0x6 ∨ instr / 4096 = 0x7 ∨
  (instr / 4096 = 0x8 ∧ (instr % 16 = 0 ∨ instr % 16 = 2 ∨ instr % 16 = 4 ∨
    instr % 16 = 5 ∨ instr % 16 = 6)) ∨
  (instr / 4096 = 0x9 ∧ instr % 16 = 0) ∨
  instr / 4096 = 0xa ∨ instr / 4096 = 0xc ∨ instr / 4096 = 0xd ∨
  (instr / 4096 = 0xe ∧ (instr % 256 = 0x9e ∨ instr % 256 = 0xa1)) ∨
  (instr / 4096 = 0xf ∧ (instr % 256 = 0x07 ∨ instr % 256 = 0x15 ∨
    instr % 256 = 0x18 ∨ instr % 256 = 0x1e ∨ instr % 256 = 0x29 ∨
    instr % 256 = 0x33 ∨ instr % 256 = 0x65))

instance (instr : Nat) : Decidable (specRecognized instr) := by
  unfold specRecognized
  infer_instance

/-- A bare machine state used to instantiate theorems on concrete inputs:
zero ram and registers, empty stack, blank screen, all keys up. -/
def testState : Chip8 :=
  { ram := fun _ => 0, stack := [], pixels := fun _ _ => Pixel.off,
    v := fun _ => 0, i := 0, pc := 0x200, keys := fun _ => Key.up,
    delay_timer := 0, sound_timer := 0, draw_queue := [] }

/-- A fixed oracle for concrete instantiations. -/
def ext0 : Ext := { rand := 0, ticks := 0 }


/-- Extract the resulting state of a non-panicking computation (used only
to name concrete states when instantiating theorems). -/
def okOr (x : Except Err Chip8) : Chip8 :=
  match x with
  | Except.ok s => s
  | Except.error _ => testState

def c2rom : List Nat := [0xa0, 0x50, 0x61, 0x9d, 0xf1, 0x33]

def c2s0 : Chip8 := okOr (init c2rom)

def c2s1 : Chip8 := okOr (emulate_cycle ext0 c2s0)

def c2s2 : Chip8 := okOr (emulate_cycle ext0 c2s1)

def c2s3 : Chip8 := okOr (emulate_cycle ext0 c2s2)

def c6s : Chip8 := { testState with stack := [0x300] }

def c1s : Chip8 := { testState with v := fun r => if r = 15 then 200 else 0 }

def c3s : Chip8 := { testState with v := fun r => if r = 0 then 16 else 0 }

def c3s2 : Chip8 := { testState with pc := 4095 }

def c3s3 : Chip8 := { testState with i := 4096 }

def c8s : Chip8 :=
  { testState with
    v := fun r => if r = 0 then 5 else 0,
    keys := fun k => if k = 5 then Key.down else Key.up }

def c7s1 : Chip8 := okOr (exec ext0 testState (0xd000 + 0 * 256 + 1 * 16 + 1))

def c7s2 : Chip8 := okOr (exec ext0 c7s1 (0xd000 + 0 * 256 + 1 * 16 + 1))

lemma copy_to_ram_oob (l : List Nat) :
    ∀ (r : Nat → Nat) (start : Nat), 0 < l.length → 4096 < start + l.length →
    copy_to_ram r start l = Except.error Err.indexOutOfBounds := by
  induction l with
  | nil => intro r start h1 _; exact absurd h1 (by simp)
  | cons b rest ih =>
      intro r start _ h2
      by_cases hs : start < 4096
      · have h3 : copy_to_ram r start (b :: rest) =
            copy_to_ram (updFn r start b) (start + 1) rest := by
          simp [copy_to_ram, ram_write, hs]
        rw [h3]
        refine ih _ (start + 1) ?_ ?_
        · simp only [List.length_cons] at h2; omega
        · simp only [List.length_cons] at h2; omega
      · simp [copy_to_ram, ram_write, hs]

lemma copy_to_ram_ok (l : List Nat) :
    ∀ (r : Nat → Nat) (start : Nat), start + l.length ≤ 4096 →
    copy_to_ram r start l =
      Except.ok (fun a =>
        if start ≤ a ∧ a < start + l.length then l.getD (a - start) 0 else r a) := by
  induction l with
  | nil =>
      intro r start _
      simp only [copy_to_ram, List.length_nil, Nat.add_zero]
      congr 1
      funext a
      rw [if_neg (by omega)]
  | cons b rest ih =>
      intro r start hlen
      have hs : start < 4096 := by simp only [List.length_cons] at hlen; omega
      have h3 : copy_to_ram r start (b :: rest) =
          copy_to_ram (updFn r start b) (start + 1) rest := by
        simp [copy_to_ram, ram_write, hs]
      rw [h3, ih _ (start + 1) (by simp only [List.length_cons] at hlen; omega)]
      congr 1
      funext a
      rcases Nat.lt_trichotomy a start with hc | hc | hc
      · rw [if_neg (by omega), if_neg (by simp only [List.length_cons]; omega), updFn,
          if_neg (by omega)]
      · subst hc
        rw [if_neg (by omega), if_pos (by simp only [List.length_cons]; omega), updFn,
          if_pos rfl]
        simp
      · by_cases hin : a < start + 1 + rest.length
        · rw [if_pos (by omega), if_pos (by simp only [List.length_cons]; omega)]
          have h4 : a - start = (a - (start + 1)) + 1 := by omega
          rw [h4, List.getD_cons_succ]
        · rw [if_neg (by omega), if_neg (by simp only [List.length_cons]; omega), updFn,
            if_neg (by omega)]

lemma ram_of_exec_ok (e : Ext) (s s' : Chip8) (instr : Nat)
    (h : exec e s instr = Except.ok s')
    (hnot : ¬(instr / 4096 = 0xf ∧ instr % 256 = 0x33)) :
    ∀ a, s'.ram a = s.ram a := by
  intro a
  obtain ⟨d, hd⟩ : ∃ d, instr / 4096 = d := ⟨_, rfl⟩
  by_cases hdlt : d < 16
  case neg =>
    have e0 : ¬(d = 0x0) := by omega
    have e1 : ¬(d = 0x1) := by omega
    have e2 : ¬(d = 0x2) := by omega
    have e3 : ¬(d = 0x3) := by omega
    have e4 : ¬(d = 0x4) := by omega
    have e6 : ¬(d = 0x6) := by omega
    have e7 : ¬(d = 0x7) := by omega
    have e8 : ¬(d = 0x8) := by omega
    have e9 : ¬(d = 0x9) := by omega
    have ea : ¬(d = 0xa) := by omega
    have ec : ¬(d = 0xc) := by omega
    have ed : ¬(d = 0xd) := by omega
    have ee : ¬(d = 0xe) := by omega
    have ef : ¬(d = 0xf) := by omega
    simp [exec, hd, e0, e1, e2, e3, e4, e6, e7, e8, e9, ea, ec, ed, ee, ef] at h
  interval_cases d
  · by_cases he0 : instr % 4096 = 0xe0
    · simp [exec, hd, he0, clear_screen] at h
      rw [← h]
    · by_cases hee : instr % 4096 = 0xee
      · simp [exec, hd, he0, hee] at h
        unfold ret at h
        cases hst : s.stack.getLast? <;> rw [hst] at h
        · exact absurd h (by simp)
        · simp only [Except.ok.injEq] at h
          rw [← h]
      · simp [exec, hd, he0, hee] at h
  · simp [exec, hd, jump] at h
    rw [← h]
  · simp [exec, hd, jump_subroutine] at h
    rw [← h]
  · simp [exec, hd, skip_if_equal] at h
    rw [← h]
  · simp [exec, hd, skip_if_unequal] at h
    rw [← h]
  · simp [exec, hd] at h
  · simp [exec, hd, set_register] at h
    rw [← h]
  · simp [exec, hd, add_const_to_v] at h
    rw [← h]
  · by_cases k0 : instr % 16 = 0
    · simp [exec, hd, k0, reg_set] at h
      rw [← h]
    · by_cases k2 : instr % 16 = 2
      · simp [exec, hd, k0, k2, reg_and] at h
        rw [← h]
      · by_cases k4 : instr % 16 = 4
        · simp [exec, hd, k0, k2, k4, reg_add] at h
          rw [← h]
        · by_cases k5 : instr % 16 = 5
          · simp [exec, hd, k0, k2, k4, k5, reg_subtract] at h
            rw [← h]
          · by_cases k6 : instr % 16 = 6
            · simp [exec, hd, k0, k2, k4, k5, k6, shift_right] at h
              rw [← h]
            · simp [exec, hd, k0, k2, k4, k5, k6] at h
  · by_cases k0 : instr % 16 = 0
    · simp [exec, hd, k0, skip_if_regs_unequal] at h
      rw [← h]
    · simp [exec, hd, k0] at h
  · simp [exec, hd, set_index] at h
    rw [← h]
  · simp [exec, hd] at h
  · simp [exec, hd, rand] at h
    rw [← h]
  · simp [exec, hd] at h
    unfold draw_sprite at h
    by_cases hb : 0 < instr % 16 ∧ 4096 < s.i + instr % 16
    · rw [if_pos hb] at h
      exact absurd h (by simp)
    · rw [if_neg hb] at h
      simp only [Except.ok.injEq] at h
      rw [← h]
  · by_cases k9e : instr % 256 = 0x9e
    · simp only [exec, hd] at h
      norm_num at h
      rw [if_pos k9e] at h
      by_cases hk : s.v (instr / 256 % 16) < 16
      · simp [skip_if_key, test_key, hk] at h
        rw [← h]
      · simp [skip_if_key, test_key, hk] at h
    · by_cases ka1 : instr % 256 = 0xa1
      · simp only [exec, hd] at h
        norm_num at h
        rw [if_neg k9e, if_pos ka1] at h
        by_cases hk : s.v (instr / 256 % 16) < 16
        · simp [skip_if_not_key, test_key, hk] at h
          rw [← h]
        · simp [skip_if_not_key, test_key, hk] at h
      · simp [exec, hd, k9e, ka1] at h
  · have k33 : ¬(instr % 256 = 0x33) := fun hx => hnot ⟨hd, hx⟩
    by_cases k07 : instr % 256 = 0x07
    · simp [exec, hd, k07, get_delay_timer] at h
      rw [← h]
    · by_cases k15 : instr % 256 = 0x15
      · simp [exec, hd, k07, k15, set_delay_timer] at h
        rw [← h]
      · by_cases k18 : instr % 256 = 0x18
        · simp [exec, hd, k07, k15, k18, set_sound_timer] at h
          rw [← h]
        · by_cases k1e : instr % 256 = 0x1e
          · simp [exec, hd, k07, k15, k18, k1e, add_reg_to_i] at h
            rw [← h]
          · by_cases k29 : instr % 256 = 0x29
            · simp [exec, hd, k07, k15, k18, k1e, k29, set_char_location] at h
              rw [← h]
            · by_cases k65 : instr % 256 = 0x65
              · simp [exec, hd, k07, k15, k18, k1e, k29, k33, k65] at h
                unfold reg_load at h
                by_cases hb : 4096 < s.i + (instr / 256 % 16 + 1)
                · rw [if_pos hb] at h
                  exact absurd h (by simp)
                · rw [if_neg hb] at h
                  simp only [Except.ok.injEq] at h
                  rw [← h]
              · simp [exec, hd, k07, k15, k18, k1e, k29, k33, k65] at h

lemma font_of_init_ok (rom : List Nat) (s0 : Chip8)
    (h : init rom = Except.ok s0) :
    ∀ k, k < 80 → s0.ram (FONT_START + k) = FONT.getD k 0 := by
  intro k hk
  unfold init at h
  cases hcr : copy_to_ram (fun _ => 0) INSTRUCTIONS_START rom with
  | error err => rw [hcr] at h; exact absurd h (by simp)
  | ok ram1 =>
      simp only [hcr, copy_to_ram_ok FONT ram1 FONT_START (by decide),
        Except.ok.injEq] at h
      rw [← h]
      have hlen : FONT.length = 80 := by rfl
      show (if FONT_START ≤ FONT_START + k ∧ FONT_START + k < FONT_START + FONT.length
        then FONT.getD (FONT_START + k - FONT_START) 0 else ram1 (FONT_START + k)) = FONT.getD k 0
      rw [if_pos (by rw [hlen]; omega)]
      congr 1
      omega

lemma foldl_updFn_range (g : Nat → Nat) :
    ∀ (count : Nat) (v0 : Nat → Nat) (r : Nat),
      ((List.range count).foldl (fun va reg => updFn va reg (g reg)) v0) r =
        if r < count then g r else v0 r := by
  intro count
  induction count with
  | zero => intro v0 r; simp
  | succ c ih =>
      intro v0 r
      rw [List.range_succ, List.foldl_append]
      simp only [List.foldl_cons, List.foldl_nil]
      have hupd : updFn ((List.range c).foldl (fun va reg => updFn va reg (g reg)) v0)
          c (g c) r =
          if r = c then g c
          else ((List.range c).foldl (fun va reg => updFn va reg (g reg)) v0) r := rfl
      rw [hupd]
      by_cases hrc : r = c
      · rw [if_pos hrc, if_pos (by omega), hrc]
      · rw [if_neg hrc, ih]
        by_cases hlt : r < c
        · rw [if_pos hlt, if_pos (by omega)]
        · rw [if_neg hlt, if_neg (by omega)]

lemma draw_cols_prefix_pixels (byte xs y : Nat) (st : DrawState) :
    ∀ (m a b : Nat),
      ((List.range m).foldl (draw_col_step byte xs y) st).pixels a b =
        if b = y ∧ xs ≤ a ∧ a - xs < m ∧ a < 64 ∧ Nat.testBit byte (7 - (a - xs))
        then (st.pixels a b).flip else st.pixels a b := by
  intro m
  induction m with
  | zero =>
      intro a b
      rw [List.range_zero, List.foldl_nil, if_neg]
      rintro ⟨-, -, h3, -, -⟩
      omega
  | succ m ih =>
      intro a b
      rw [List.range_succ, List.foldl_append, List.foldl_cons, List.foldl_nil]
      simp only [draw_col_step, SCREEN_WIDTH]
      by_cases hx64 : 64 ≤ xs + m
      · rw [if_pos hx64, ih a b]
        refine if_congr ?_ rfl rfl
        constructor
        · rintro ⟨h1, h2, h3, h4, h5⟩
          exact ⟨h1, h2, by omega, h4, h5⟩
        · rintro ⟨h1, h2, h3, h4, h5⟩
          exact ⟨h1, h2, by omega, h4, h5⟩
      · rw [if_neg hx64]
        by_cases hbit : Nat.testBit byte (7 - m) = true
        · rw [if_pos hbit]
          by_cases hab : a = xs + m ∧ b = y
          · obtain ⟨ha, hb⟩ := hab
            subst ha
            subst hb
            show updPix _ (xs + m) b _ (xs + m) b = _
            rw [updPix, if_pos ⟨rfl, rfl⟩, ih (xs + m) b,
              if_neg (by rintro ⟨-, -, h3, -, -⟩; omega),
              if_pos ⟨rfl, by omega, by omega, by omega,
                by rw [show xs + m - xs = m from by omega]; exact hbit⟩]
          · show updPix _ (xs + m) y _ a b = _
            rw [updPix, if_neg hab, ih a b]
            refine if_congr ?_ rfl rfl
            constructor
            · rintro ⟨h1, h2, h3, h4, h5⟩
              exact ⟨h1, h2, by omega, h4, h5⟩
            · rintro ⟨h1, h2, h3, h4, h5⟩
              refine ⟨h1, h2, ?_, h4, h5⟩
              rcases Nat.lt_succ_iff_lt_or_eq.mp h3 with h | h
              · exact h
              · exact absurd ⟨by omega, h1⟩ hab
        · rw [if_neg hbit, ih a b]
          refine if_congr ?_ rfl rfl
          constructor
          · rintro ⟨h1, h2, h3, h4, h5⟩
            exact ⟨h1, h2, by omega, h4, h5⟩
          · rintro ⟨h1, h2, h3, h4, h5⟩
            refine ⟨h1, h2, ?_, h4, h5⟩
            rcases Nat.lt_succ_iff_lt_or_eq.mp h3 with h | h
            · exact h
            · exfalso
              apply hbit
              have hax : a - xs = m := h
              rw [← hax]
              exact h5

lemma draw_cols_prefix_collision (byte xs y : Nat) (st : DrawState) :
    ∀ (m : Nat),
      (((List.range m).foldl (draw_col_step byte xs y) st).collision = true ↔
        st.collision = true ∨ ∃ j, j < m ∧ xs + j < 64 ∧
          Nat.testBit byte (7 - j) ∧ st.pixels (xs + j) y = Pixel.on) := by
  intro m
  induction m with
  | zero =>
      rw [List.range_zero, List.foldl_nil]
      constructor
      · intro h
        exact Or.inl h
      · rintro (h | ⟨j, hj, -, -, -⟩)
        · exact h
        · omega
  | succ m ih =>
      rw [List.range_succ, List.foldl_append, List.foldl_cons, List.foldl_nil]
      simp only [draw_col_step, SCREEN_WIDTH]
      by_cases hx64 : 64 ≤ xs + m
      · rw [if_pos hx64, ih]
        constructor
        · rintro (h | ⟨j, hj, hj64, hbitj, hpixj⟩)
          · exact Or.inl h
          · exact Or.inr ⟨j, by omega, hj64, hbitj, hpixj⟩
        · rintro (h | ⟨j, hj, hj64, hbitj, hpixj⟩)
          · exact Or.inl h
          · refine Or.inr ⟨j, ?_, hj64, hbitj, hpixj⟩
            rcases Nat.lt_succ_iff_lt_or_eq.mp hj with h' | h'
            · exact h'
            · omega
      · rw [if_neg hx64]
        by_cases hbit : Nat.testBit byte (7 - m) = true
        · rw [if_pos hbit]
          have hA := draw_cols_prefix_pixels byte xs y st m (xs + m) y
          rw [if_neg (by rintro ⟨-, -, h3, -, -⟩; omega)] at hA
          show (if ((List.range m).foldl (draw_col_step byte xs y) st).pixels (xs + m) y =
              Pixel.on then true
            else ((List.range m).foldl (draw_col_step byte xs y) st).collision) = true ↔ _
          rw [hA]
          by_cases hpx : st.pixels (xs + m) y = Pixel.on
          · rw [if_pos hpx]
            constructor
            · intro _
              exact Or.inr ⟨m, by omega, by omega, hbit, hpx⟩
            · intro _
              rfl
          · rw [if_neg hpx, ih]
            constructor
            · rintro (h | ⟨j, hj, hj64, hbitj, hpixj⟩)
              · exact Or.inl h
              · exact Or.inr ⟨j, by omega, hj64, hbitj, hpixj⟩
            · rintro (h | ⟨j, hj, hj64, hbitj, hpixj⟩)
              · exact Or.inl h
              · refine Or.inr ⟨j, ?_, hj64, hbitj, hpixj⟩
                rcases Nat.lt_succ_iff_lt_or_eq.mp hj with h' | h'
                · exact h'
                · exfalso
                  apply hpx
                  rw [← h']
                  exact hpixj
        · rw [if_neg hbit, ih]
          constructor
          · rintro (h | ⟨j, hj, hj64, hbitj, hpixj⟩)
            · exact Or.inl h
            · exact Or.inr ⟨j, by omega, hj64, hbitj, hpixj⟩
          · rintro (h | ⟨j, hj, hj64, hbitj, hpixj⟩)
            · exact Or.inl h
            · refine Or.inr ⟨j, ?_, hj64, hbitj, hpixj⟩
              rcases Nat.lt_succ_iff_lt_or_eq.mp hj with h' | h'
              · exact h'
              · exfalso
                apply hbit
                rw [← h']
                exact hbitj

lemma Pixel.flip_flip (p : Pixel) : p.flip.flip = p := by
  cases p <;> rfl

lemma Pixel.flip_eq_on (p : Pixel) : p.flip = Pixel.on ↔ p = Pixel.off := by
  cases p <;> simp [Pixel.flip]

lemma draw_rows_prefix_pixels (ram : Nat → Nat) (memS xs ys : Nat) (st : DrawState) :
    ∀ (k a b : Nat),
      ((List.range k).foldl (draw_row_step ram memS xs ys) st).pixels a b =
        if ys ≤ b ∧ b - ys < k ∧ b < 32 ∧ xs ≤ a ∧ a - xs < 8 ∧ a < 64 ∧
            Nat.testBit (ram (memS + (b - ys))) (7 - (a - xs))
        then (st.pixels a b).flip else st.pixels a b := by
  intro k
  induction k with
  | zero =>
      intro a b
      rw [List.range_zero, List.foldl_nil, if_neg]
      rintro ⟨-, h2, -, -, -, -, -⟩
      omega
  | succ k ih =>
      intro a b
      rw [List.range_succ, List.foldl_append, List.foldl_cons, List.foldl_nil]
      simp only [draw_row_step, SCREEN_HEIGHT]
      by_cases hy32 : 32 ≤ ys + k
      · rw [if_pos hy32, ih a b]
        refine if_congr ?_ rfl rfl
        constructor
        · rintro ⟨h1, h2, h3, h4, h5, h6, h7⟩
          exact ⟨h1, by omega, h3, h4, h5, h6, h7⟩
        · rintro ⟨h1, h2, h3, h4, h5, h6, h7⟩
          refine ⟨h1, ?_, h3, h4, h5, h6, h7⟩
          rcases Nat.lt_succ_iff_lt_or_eq.mp h2 with h | h
          · exact h
          · omega
      · rw [if_neg hy32, draw_cols,
          draw_cols_prefix_pixels (ram (memS + k)) xs (ys + k) _ 8 a b]
        by_cases hcond : b = ys + k ∧ xs ≤ a ∧ a - xs < 8 ∧ a < 64 ∧
            Nat.testBit (ram (memS + k)) (7 - (a - xs))
        · rw [if_pos hcond]
          obtain ⟨hb, hc2, hc3, hc4, hc5⟩ := hcond
          rw [ih a b, if_neg (by rintro ⟨-, hlt, -, -, -, -, -⟩; omega)]
          have hbig : ys ≤ b ∧ b - ys < k + 1 ∧ b < 32 ∧ xs ≤ a ∧ a - xs < 8 ∧ a < 64 ∧
              Nat.testBit (ram (memS + (b - ys))) (7 - (a - xs)) := by
            refine ⟨by omega, by omega, by omega, hc2, hc3, hc4, ?_⟩
            rw [show b - ys = k from by omega]
            exact hc5
          rw [if_pos hbig]
        · rw [if_neg hcond, ih a b]
          refine if_congr ?_ rfl rfl
          constructor
          · rintro ⟨h1, h2, h3, h4, h5, h6, h7⟩
            exact ⟨h1, by omega, h3, h4, h5, h6, h7⟩
          · rintro ⟨h1, h2, h3, h4, h5, h6, h7⟩
            refine ⟨h1, ?_, h3, h4, h5, h6, h7⟩
            rcases Nat.lt_succ_iff_lt_or_eq.mp h2 with h | h
            · exact h
            · exfalso
              apply hcond
              refine ⟨by omega, h4, h5, h6, ?_⟩
              rw [← h]
              exact h7

lemma draw_rows_prefix_collision (ram : Nat → Nat) (memS xs ys : Nat) (st : DrawState) :
    ∀ (k : Nat),
      (((List.range k).foldl (draw_row_step ram memS xs ys) st).collision = true ↔
        st.collision = true ∨ ∃ i j, i < k ∧ ys + i < 32 ∧ j < 8 ∧ xs + j < 64 ∧
          Nat.testBit (ram (memS + i)) (7 - j) ∧
          st.pixels (xs + j) (ys + i) = Pixel.on) := by
  intro k
  induction k with
  | zero =>
      rw [List.range_zero, List.foldl_nil]
      constructor
      · intro h
        exact Or.inl h
      · rintro (h | ⟨i, j, hi, -, -, -, -, -⟩)
        · exact h
        · omega
  | succ k ih =>
      rw [List.range_succ, List.foldl_append, List.foldl_cons, List.foldl_nil]
      simp only [draw_row_step, SCREEN_HEIGHT]
      by_cases hy32 : 32 ≤ ys + k
      · rw [if_pos hy32, ih]
        constructor
        · rintro (h | ⟨i, j, hi, hiy, hj, hjx, hbit, hpx⟩)
          · exact Or.inl h
          · exact Or.inr ⟨i, j, by omega, hiy, hj, hjx, hbit, hpx⟩
        · rintro (h | ⟨i, j, hi, hiy, hj, hjx, hbit, hpx⟩)
          · exact Or.inl h
          · refine Or.inr ⟨i, j, ?_, hiy, hj, hjx, hbit, hpx⟩
            rcases Nat.lt_succ_iff_lt_or_eq.mp hi with h' | h'
            · exact h'
            · omega
      · rw [if_neg hy32, draw_cols,
          draw_cols_prefix_collision (ram (memS + k)) xs (ys + k) _ 8, ih]
        constructor
        · rintro ((h | ⟨i, j, hi, hiy, hj, hjx, hbit, hpx⟩) | ⟨j, hj, hjx, hbit, hpx⟩)
          · exact Or.inl h
          · exact Or.inr ⟨i, j, by omega, hiy, hj, hjx, hbit, hpx⟩
          · have hC := draw_rows_prefix_pixels ram memS xs ys st k (xs + j) (ys + k)
            rw [if_neg (by rintro ⟨-, hlt, -, -, -, -, -⟩; omega)] at hC
            rw [hC] at hpx
            exact Or.inr ⟨k, j, by omega, by omega, hj, hjx, hbit, hpx⟩
        · rintro (h | ⟨i, j, hi, hiy, hj, hjx, hbit, hpx⟩)
          · exact Or.inl (Or.inl h)
          · rcases Nat.lt_succ_iff_lt_or_eq.mp hi with h' | h'
            · exact Or.inl (Or.inr ⟨i, j, h', hiy, hj, hjx, hbit, hpx⟩)
            · subst h'
              right
              have hC := draw_rows_prefix_pixels ram memS xs ys st i (xs + j) (ys + i)
              rw [if_neg (by rintro ⟨-, hlt, -, -, -, -, -⟩; omega)] at hC
              refine ⟨j, hj, hjx, hbit, ?_⟩
              rw [hC]
              exact hpx

/-- C4: there is no length validation in `Chip8::initialize` (only the
`TODO: verify rom length` comment): loading a program of 3585 bytes
(one more than the 4096 - 0x200 = 3584 that fit) makes the copy loop index
`ram[4096]`, an out-of-bounds panic, instead of surfacing a recoverable
configuration error before execution begins. -/
theorem C4_oversized_rom_panics :
    init (List.replicate 3585 0) = Except.error Err.indexOutOfBounds := by
  have h := copy_to_ram_oob (List.replicate 3585 0) (fun _ => 0) INSTRUCTIONS_START
    (by rw [List.length_replicate]; omega)
    (by rw [List.length_replicate]; unfold INSTRUCTIONS_START; omega)
  unfold init
  rw [h]

set_option maxHeartbeats 1600000 in
/-- C5: every 16-bit instruction word matching none of the 26 opcode
patterns of the spec table is decoded by `emulate_cycle`'s dispatcher as a
fatal error carrying the offending word; it is never executed as a silent
no-op (in particular PC is not advanced, since the state is discarded). -/
theorem C5_unrecognized_is_fatal (e : Ext) (s : Chip8) (instr : Nat)
    (hw : instr < 65536) (hrec : ¬ specRecognized instr) :
    exec e s instr = Except.error (Err.unknownInstr instr) := by
  unfold specRecognized at hrec
  obtain ⟨d, hd⟩ : ∃ d, instr / 4096 = d := ⟨_, rfl⟩
  have hdlt : d < 16 := by omega
  interval_cases d
  · have h1 : ¬(instr % 4096 = 0xe0) := by omega
    have h2 : ¬(instr % 4096 = 0xee) := by omega
    simp [exec, hd, h1, h2]
  · exfalso; omega
  · exfalso; omega
  · exfalso; omega
  · exfalso; omega
  · simp [exec, hd]
  · exfalso; omega
  · exfalso; omega
  · have h1 : ¬(instr % 16 = 0) := by omega
    have h2 : ¬(instr % 16 = 2) := by omega
    have h3 : ¬(instr % 16 = 4) := by omega
    have h4 : ¬(instr % 16 = 5) := by omega
    have h5 : ¬(instr % 16 = 6) := by omega
    simp [exec, hd, h1, h2, h3, h4, h5]
  · have h1 : ¬(instr % 16 = 0) := by omega
    simp [exec, hd, h1]
  · exfalso; omega
  · simp [exec, hd]
  · exfalso; omega
  · exfalso; omega
  · have h1 : ¬(instr % 256 = 0x9e) := by omega
    have h2 : ¬(instr % 256 = 0xa1) := by omega
    simp [exec, hd, h1, h2]
  · have h1 : ¬(instr % 256 = 0x07) := by omega
    have h2 : ¬(instr % 256 = 0x15) := by omega
    have h3 : ¬(instr % 256 = 0x18) := by omega
    have h4 : ¬(instr % 256 = 0x1e) := by omega
    have h5 : ¬(instr % 256 = 0x29) := by omega
    have h6 : ¬(instr % 256 = 0x33) := by omega
    have h7 : ¬(instr % 256 = 0x65) := by omega
    simp [exec, hd, h1, h2, h3, h4, h5, h6, h7]

theorem C5_witness :
    exec ext0 testState 0x5120 = Except.error (Err.unknownInstr 0x5120) :=
  C5_unrecognized_is_fatal ext0 testState 0x5120 (by decide) (by decide)

/-- C6: executing opcode 0x00EE with an empty call stack is a fatal error
(the `unwrap_or_else` panic in `Chip8::ret`); with a non-empty stack it
pops the top (last-pushed) return address a and sets PC to a + 2. -/
theorem C6_ret_underflow_or_pop (e : Ext) (s : Chip8) :
    (s.stack = [] → exec e s 0x00ee = Except.error Err.stackUnderflow) ∧
    (∀ rest a, s.stack = rest ++ [a] → a + 2 < 65536 →
      exec e s 0x00ee = Except.ok { s with stack := rest, pc := a + 2 }) := by
  have hx : exec e s 0x00ee = ret s 0x00ee := rfl
  constructor
  · intro h
    rw [hx]
    simp [ret, h]
  · intro rest a hs ha
    rw [hx]
    simp [ret, hs, List.getLast?_concat, List.dropLast_concat, Nat.mod_eq_of_lt ha]

theorem C6_witness :
    exec ext0 testState 0x00ee = Except.error Err.stackUnderflow ∧
    exec ext0 c6s 0x00ee = Except.ok { c6s with stack := [], pc := 0x302 } :=
  ⟨(C6_ret_underflow_or_pop ext0 testState).1 rfl,
   (C6_ret_underflow_or_pop ext0 c6s).2 [] 0x300 rfl (by decide)⟩

/-- C2 (amended): the font table is established at [0x50, 0x50 + 80) by
initialization, and every opcode other than 0xFx33 leaves all of ram
unchanged; the invariant claimed by the spec fails only because 0xFx33
(`set_bcd`) writes ram[I..I+2] for an arbitrary I, which can point into the
font region (see the counterexample). -/
theorem C2_font_establishment_and_preservation :
    (∀ e s s' instr, exec e s instr = Except.ok s' →
      ¬(instr / 4096 = 0xf ∧ instr % 256 = 0x33) → ∀ a, s'.ram a = s.ram a) ∧
    (∀ rom s0, init rom = Except.ok s0 →
      ∀ k, k < 80 → s0.ram (FONT_START + k) = FONT.getD k 0) :=
  ⟨ram_of_exec_ok, font_of_init_ok⟩

/-- C2 is false as stated: the program [0xA050, 0x619D, 0xF133] reaches,
in three cycles from initialization, a state whose byte at 0x50 is 1 (the
BCD hundreds digit of V1 = 157), no longer the first font byte 0xF0. -/
theorem C2_counterexample :
    Reachable c2s3 ∧ c2s3.ram 0x50 = 1 ∧ c2s3.ram 0x50 ≠ FONT.getD 0 0 := by
  refine ⟨?_, by rfl, by decide⟩
  have h0 : init c2rom = Except.ok c2s0 := by rfl
  have h1 : emulate_cycle ext0 c2s0 = Except.ok c2s1 := by rfl
  have h2 : emulate_cycle ext0 c2s1 = Except.ok c2s2 := by rfl
  have h3 : emulate_cycle ext0 c2s2 = Except.ok c2s3 := by rfl
  exact Reachable.step ext0 c2s2 c2s3
    (Reachable.step ext0 c2s1 c2s2
      (Reachable.step ext0 c2s0 c2s1 (Reachable.init c2rom c2s0 h0) h1) h2) h3

theorem C2_witness :
    (okOr (exec ext0 testState 0x1234)).ram 77 = testState.ram 77 ∧
    c2s0.ram (FONT_START + 0) = FONT.getD 0 0 :=
  ⟨C2_font_establishment_and_preservation.1 ext0 testState
      (okOr (exec ext0 testState 0x1234)) 0x1234 rfl (by decide) 77,
   C2_font_establishment_and_preservation.2 c2rom c2s0 rfl 0 (by decide)⟩

/-- C1 is false as stated: executing 0x8FF4 (x = y = 0xF) in a state with
VF = 200 overflows (200 + 200 > 255), so the claim demands VF = 1 (the
carry), but the code writes the flag first and the wrapped sum second, so
VF ends at (200 + 200) % 256 = 144. -/
theorem C1_counterexample :
    (okOr (exec ext0 c1s 0x8ff4)).v 15 = 144 ∧ 255 < 200 + 200 ∧ (144 : Nat) ≠ 1 :=
  ⟨by rfl, by decide, by decide⟩

/-- C1 (amended): for 0xFx1E and 0xDxyn, VF is the last register written
and holds the flag (overflow / collision) afterwards; for 0x8xy4, 0x8xy5
and 0x8xy6 the flag is written to VF first and the result to Vx second, so
after the cycle VF holds the flag value exactly when x ≠ 0xF, and holds
the arithmetic result (not the flag) when x = 0xF. -/
theorem C1_flag_write_order (e : Ext) (s : Chip8) (x y n : Nat)
    (hx : x < 16) (hy : y < 16) (hn : n < 16)
    (hdraw : ¬(0 < n ∧ 4096 < s.i + n)) :
    (∀ t, exec e s (0x8004 + x * 256 + y * 16) = Except.ok t →
      t.v 15 = if x = 15 then (s.v x + s.v y) % 256
               else if 255 < s.v x + s.v y then 1 else 0) ∧
    (∀ t, exec e s (0x8005 + x * 256 + y * 16) = Except.ok t →
      t.v 15 = if x = 15 then (s.v x + 256 - s.v y) % 256
               else if s.v x < s.v y then 0 else 1) ∧
    (∀ t, exec e s (0x8006 + x * 256 + y * 16) = Except.ok t →
      t.v 15 = if x = 15 then s.v x / 2 else s.v x % 2) ∧
    (∀ t, exec e s (0xf01e + x * 256) = Except.ok t →
      t.v 15 = if 4095 < (s.i + s.v x) % 65536 then 1 else 0) ∧
    (∀ t, exec e s (0xd000 + x * 256 + y * 16 + n) = Except.ok t →
      t.v 15 = if (draw_loop s.ram s.i (s.v x) (s.v y) n
          ⟨s.pixels, false, s.draw_queue⟩).collision then 1 else 0) := by
  have hne : x = 15 ∨ ¬(x = 15) := em _
  refine ⟨?_, ?_, ?_, ?_, ?_⟩
  · intro t ht
    have d1 : (0x8004 + x * 256 + y * 16) / 4096 = 8 := by omega
    have d2 : (0x8004 + x * 256 + y * 16) % 16 = 4 := by omega
    have d3 : (0x8004 + x * 256 + y * 16) / 256 % 16 = x := by omega
    have d4 : (0x8004 + x * 256 + y * 16) / 16 % 16 = y := by omega
    simp only [exec, d1, d2] at ht
    norm_num at ht
    unfold reg_add reg_get_for_math at ht
    rw [d3, d4] at ht
    rw [← ht]
    show updFn (updFn s.v 15 _) x _ 15 = _
    rcases hne with h15 | h15
    · subst h15
      simp [updFn]
    · have h15s : ¬(15 = x) := fun hh => h15 hh.symm
      simp [updFn, h15, h15s]
  · intro t ht
    have d1 : (0x8005 + x * 256 + y * 16) / 4096 = 8 := by omega
    have d2a : ¬((0x8005 + x * 256 + y * 16) % 16 = 4) := by omega
    have d2 : (0x8005 + x * 256 + y * 16) % 16 = 5 := by omega
    have d3 : (0x8005 + x * 256 + y * 16) / 256 % 16 = x := by omega
    have d4 : (0x8005 + x * 256 + y * 16) / 16 % 16 = y := by omega
    simp only [exec, d1, d2, d2a] at ht
    norm_num at ht
    unfold reg_subtract reg_get_for_math at ht
    rw [d3, d4] at ht
    rw [← ht]
    show updFn (updFn s.v 15 _) x _ 15 = _
    rcases hne with h15 | h15
    · subst h15
      simp [updFn]
    · have h15s : ¬(15 = x) := fun hh => h15 hh.symm
      simp [updFn, h15, h15s]
  · intro t ht
    have d1 : (0x8006 + x * 256 + y * 16) / 4096 = 8 := by omega
    have d2a : ¬((0x8006 + x * 256 + y * 16) % 16 = 4) := by omega
    have d2b : ¬((0x8006 + x * 256 + y * 16) % 16 = 5) := by omega
    have d2 : (0x8006 + x * 256 + y * 16) % 16 = 6 := by omega
    have d3 : (0x8006 + x * 256 + y * 16) / 256 % 16 = x := by omega
    simp only [exec, d1, d2, d2a, d2b] at ht
    norm_num at ht
    unfold shift_right at ht
    rw [d3] at ht
    rw [← ht]
    show updFn (updFn s.v 15 _) x _ 15 = _
    rcases hne with h15 | h15
    · subst h15
      simp [updFn]
    · have h15s : ¬(15 = x) := fun hh => h15 hh.symm
      simp [updFn, h15, h15s]
  · intro t ht
    have d1 : (0xf01e + x * 256) / 4096 = 15 := by omega
    have d2 : (0xf01e + x * 256) % 256 = 0x1e := by omega
    have d3 : (0xf01e + x * 256) / 256 % 16 = x := by omega
    simp only [exec, d1, d2] at ht
    norm_num at ht
    unfold add_reg_to_i at ht
    rw [d3] at ht
    rw [← ht]
    by_cases hov : 4095 < (s.i + s.v x) % 65536
    · simp [hov, updFn]
    · simp [hov, updFn]
  · intro t ht
    have d1 : (0xd000 + x * 256 + y * 16 + n) / 4096 = 13 := by omega
    have d2 : (0xd000 + x * 256 + y * 16 + n) % 16 = n := by omega
    have d3 : (0xd000 + x * 256 + y * 16 + n) / 256 % 16 = x := by omega
    have d4 : (0xd000 + x * 256 + y * 16 + n) / 16 % 16 = y := by omega
    simp only [exec, d1] at ht
    norm_num at ht
    unfold draw_sprite at ht
    rw [d2, d3, d4, if_neg hdraw] at ht
    simp only [Except.ok.injEq] at ht
    rw [← ht]
    simp [updFn]

theorem C1_witness :
    (okOr (exec ext0 testState (0x8004 + 1 * 256 + 2 * 16))).v 15 = 0 := by
  have h := (C1_flag_write_order ext0 testState 1 2 0 (by decide) (by decide)
    (by decide) (by decide)).1 (okOr (exec ext0 testState (0x8004 + 1 * 256 + 2 * 16)))
    (by rfl)
  simpa using h

/-- C3 is false as stated: executing 0xE09E with V0 = 16 (key index out of
range) is an out-of-bounds panic on `keys[16]`; the index is neither
clipped nor wrapped to a defined skip. -/
theorem C3_counterexample :
    exec ext0 c3s 0xe09e = Except.error Err.indexOutOfBounds := by rfl

/-- C3 (amended): out-of-range operand accesses have the explicitly
defined behavior of a fatal bounds-check panic (never memory-unsafe, but
also never clipped or wrapped): Ex9E/ExA1 with Vx ≥ 16 panic on the key
index, Dxyn with n > 0 and I + n > 4096 panics on the sprite-byte read,
and fetching with PC ≥ 4095 panics on the instruction read. -/
theorem C3_oob_is_panic (e : Ext) (s : Chip8) (x y n : Nat)
    (hx : x < 16) (hy : y < 16) (hn : n < 16) :
    (16 ≤ s.v x → exec e s (0xe09e + x * 256) = Except.error Err.indexOutOfBounds) ∧
    (16 ≤ s.v x → exec e s (0xe0a1 + x * 256) = Except.error Err.indexOutOfBounds) ∧
    (0 < n → 4096 < s.i + n →
      exec e s (0xd000 + x * 256 + y * 16 + n) = Except.error Err.indexOutOfBounds) ∧
    (4095 ≤ s.pc → emulate_cycle e s = Except.error Err.indexOutOfBounds) := by
  refine ⟨?_, ?_, ?_, ?_⟩
  · intro hk
    have d1 : (0xe09e + x * 256) / 4096 = 14 := by omega
    have d2 : (0xe09e + x * 256) % 256 = 0x9e := by omega
    have d3 : (0xe09e + x * 256) / 256 % 16 = x := by omega
    have hnk : ¬(s.v x < 16) := by omega
    simp [exec, d1, d2, skip_if_key, test_key, d3, hnk]
  · intro hk
    have d1 : (0xe0a1 + x * 256) / 4096 = 14 := by omega
    have d2a : ¬((0xe0a1 + x * 256) % 256 = 0x9e) := by omega
    have d2 : (0xe0a1 + x * 256) % 256 = 0xa1 := by omega
    have d3 : (0xe0a1 + x * 256) / 256 % 16 = x := by omega
    have hnk : ¬(s.v x < 16) := by omega
    simp [exec, d1, d2, d2a, skip_if_not_key, test_key, d3, hnk]
  · intro hn0 hoob
    have d1 : (0xd000 + x * 256 + y * 16 + n) / 4096 = 13 := by omega
    have d2 : (0xd000 + x * 256 + y * 16 + n) % 16 = n := by omega
    simp [exec, d1, draw_sprite, d2, hn0, hoob]
  · intro hpc
    have hf : ¬(s.pc + 1 < 4096) := by omega
    simp [emulate_cycle, fetch, fetch_at, hf]

theorem C3_witness :
    exec ext0 c3s 0xe0a1 = Except.error Err.indexOutOfBounds ∧
    exec ext0 c3s3 (0xd000 + 0 * 256 + 0 * 16 + 1) = Except.error Err.indexOutOfBounds ∧
    emulate_cycle ext0 c3s2 = Except.error Err.indexOutOfBounds :=
  ⟨(C3_oob_is_panic ext0 c3s 0 0 1 (by decide) (by decide) (by decide)).2.1 (by decide),
   (C3_oob_is_panic ext0 c3s3 0 0 1 (by decide) (by decide) (by decide)).2.2.1
     (by decide) (by decide),
   (C3_oob_is_panic ext0 c3s2 0 0 1 (by decide) (by decide) (by decide)).2.2.2 (by decide)⟩

/-- C8: executing Ex9E or ExA1 with Vx = k < 16 always forces key k back to
Up afterward (whether or not it was Down, and whether or not the skip was
taken), and adds 4 to PC exactly when the skip condition held (key Down
for Ex9E, key Up for ExA1), else 2. -/
theorem C8_skip_key_consumes (e : Ext) (s : Chip8) (x : Nat)
    (hx : x < 16) (hk : s.v x < 16) (hpc : s.pc + 4 < 65536) :
    exec e s (0xe09e + x * 256) =
      Except.ok { s with
        keys := updKey s.keys (s.v x) Key.up,
        pc := s.pc + (if s.keys (s.v x) = Key.down then 4 else 2) } ∧
    exec e s (0xe0a1 + x * 256) =
      Except.ok { s with
        keys := updKey s.keys (s.v x) Key.up,
        pc := s.pc + (if s.keys (s.v x) = Key.up then 4 else 2) } := by
  constructor
  · have d1 : (0xe09e + x * 256) / 4096 = 14 := by omega
    have d2 : (0xe09e + x * 256) % 256 = 0x9e := by omega
    have d3 : (0xe09e + x * 256) / 256 % 16 = x := by omega
    simp only [exec, d1, d2]
    norm_num
    simp only [skip_if_key, test_key, d3, if_pos hk]
    cases hkey : s.keys (s.v x) <;>
      simp [hkey, Nat.mod_eq_of_lt (by omega : s.pc + 2 < 65536),
        Nat.mod_eq_of_lt hpc]
  · have d1 : (0xe0a1 + x * 256) / 4096 = 14 := by omega
    have d2a : ¬((0xe0a1 + x * 256) % 256 = 0x9e) := by omega
    have d2 : (0xe0a1 + x * 256) % 256 = 0xa1 := by omega
    have d3 : (0xe0a1 + x * 256) / 256 % 16 = x := by omega
    simp only [exec, d1, d2, d2a]
    norm_num
    simp only [skip_if_not_key, test_key, d3, if_pos hk]
    cases hkey : s.keys (s.v x) <;>
      simp [hkey, Nat.mod_eq_of_lt (by omega : s.pc + 2 < 65536),
        Nat.mod_eq_of_lt hpc]

theorem C8_witness :
    exec ext0 c8s (0xe09e + 0 * 256) =
      Except.ok { c8s with
        keys := updKey c8s.keys (c8s.v 0) Key.up,
        pc := c8s.pc + (if c8s.keys (c8s.v 0) = Key.down then 4 else 2) } ∧
    c8s.keys 5 = Key.down ∧
    (updKey c8s.keys (c8s.v 0) Key.up) 5 = Key.up ∧
    c8s.pc + (if c8s.keys (c8s.v 0) = Key.down then 4 else 2) = c8s.pc + 4 :=
  ⟨(C8_skip_key_consumes ext0 c8s 0 (by decide) (by decide) (by decide)).1,
   by rfl, by rfl, by rfl⟩

/-- C10: executing 0xFx65 (when the reads ram[I..I+x] are in bounds) loads
V0..Vx from ram[I..] and advances PC by 2; the index register I keeps its
prior value (it is not advanced past the loaded bytes), and ram, the
framebuffer, the keys, both timers, the call stack, the draw queue and the
registers above Vx are all unchanged. -/
theorem C10_reg_load_frame (e : Ext) (s : Chip8) (x : Nat) (t : Chip8)
    (hx : x < 16) (hmem : s.i + x < 4096)
    (h : exec e s (0xf065 + x * 256) = Except.ok t) :
    t.i = s.i ∧ (∀ a, t.ram a = s.ram a) ∧ (∀ a b, t.pixels a b = s.pixels a b) ∧
    (∀ k, t.keys k = s.keys k) ∧ t.delay_timer = s.delay_timer ∧
    t.sound_timer = s.sound_timer ∧ t.stack = s.stack ∧
    t.draw_queue = s.draw_queue ∧
    (∀ r, x < r → t.v r = s.v r) ∧
    (∀ r, r ≤ x → t.v r = s.ram (s.i + r)) ∧
    t.pc = (s.pc + 2) % 65536 := by
  have d1 : (0xf065 + x * 256) / 4096 = 15 := by omega
  have d2a : ¬((0xf065 + x * 256) % 256 = 0x07) := by omega
  have d2b : ¬((0xf065 + x * 256) % 256 = 0x15) := by omega
  have d2c : ¬((0xf065 + x * 256) % 256 = 0x18) := by omega
  have d2d : ¬((0xf065 + x * 256) % 256 = 0x1e) := by omega
  have d2e : ¬((0xf065 + x * 256) % 256 = 0x29) := by omega
  have d2f : ¬((0xf065 + x * 256) % 256 = 0x33) := by omega
  have d2 : (0xf065 + x * 256) % 256 = 0x65 := by omega
  have d3 : (0xf065 + x * 256) / 256 % 16 = x := by omega
  have hb : ¬(4096 < s.i + ((0xf065 + x * 256) / 256 % 16 + 1)) := by rw [d3]; omega
  simp only [exec, d1, d2, d2a, d2b, d2c, d2d, d2e, d2f] at h
  norm_num at h
  unfold reg_load at h
  rw [if_neg hb, d3] at h
  simp only [Except.ok.injEq] at h
  rw [← h]
  refine ⟨rfl, fun a => rfl, fun a b => rfl, fun k => rfl, rfl, rfl, rfl, rfl, ?_, ?_, rfl⟩
  · intro r hr
    show ((List.range (x + 1)).foldl (fun va reg => updFn va reg (s.ram (s.i + reg))) s.v) r =
      s.v r
    rw [foldl_updFn_range (fun reg => s.ram (s.i + reg)) (x + 1) s.v r, if_neg (by omega)]
  · intro r hr
    show ((List.range (x + 1)).foldl (fun va reg => updFn va reg (s.ram (s.i + reg))) s.v) r =
      s.ram (s.i + r)
    rw [foldl_updFn_range (fun reg => s.ram (s.i + reg)) (x + 1) s.v r, if_pos (by omega)]

theorem C10_witness :
    (okOr (exec ext0 testState (0xf065 + 0 * 256))).i = testState.i :=
  (C10_reg_load_frame ext0 testState 0 (okOr (exec ext0 testState (0xf065 + 0 * 256)))
    (by decide) (by decide) (by rfl)).1

/-- C7: executing the same 0xDxyn draw twice in succession (same sprite
data and coordinates; x, y ≠ 0xF so that the VF flag write of the first
draw does not change the coordinate registers, i.e. the second draw is at
the same location and registers) returns every pixel of the framebuffer to
its pre-draw state, and the second draw sets VF = 1 exactly when some
sprite bit drawn in-bounds found its pixel on, i.e. was turned on by the
first draw (equivalently, was off before the first draw). -/
theorem C7_draw_twice_roundtrip (e : Ext) (s : Chip8) (x y n : Nat) (s1 s2 : Chip8)
    (hx : x < 16) (hy : y < 16) (hn : n < 16) (hx15 : x ≠ 15) (hy15 : y ≠ 15)
    (h1 : exec e s (0xd000 + x * 256 + y * 16 + n) = Except.ok s1)
    (h2 : exec e s1 (0xd000 + x * 256 + y * 16 + n) = Except.ok s2) :
    (∀ a b, s2.pixels a b = s.pixels a b) ∧
    (s2.v 15 = 1 ↔ ∃ i j, i < n ∧ s.v y + i < 32 ∧ j < 8 ∧ s.v x + j < 64 ∧
      Nat.testBit (s.ram (s.i + i)) (7 - j) ∧
      s.pixels (s.v x + j) (s.v y + i) = Pixel.off) := by
  have d1 : (0xd000 + x * 256 + y * 16 + n) / 4096 = 13 := by omega
  have d2 : (0xd000 + x * 256 + y * 16 + n) % 16 = n := by omega
  have d3 : (0xd000 + x * 256 + y * 16 + n) / 256 % 16 = x := by omega
  have d4 : (0xd000 + x * 256 + y * 16 + n) / 16 % 16 = y := by omega
  simp only [exec, d1] at h1 h2
  norm_num at h1 h2
  unfold draw_sprite at h1 h2
  rw [d2, d3, d4] at h1
  rw [d2, d3, d4] at h2
  by_cases hoob : 0 < n ∧ 4096 < s.i + n
  · rw [if_pos hoob] at h1
    exact absurd h1 (by simp)
  rw [if_neg hoob] at h1
  simp only [Except.ok.injEq] at h1
  have hs1pix : ∀ a b, s1.pixels a b =
      (draw_loop s.ram s.i (s.v x) (s.v y) n ⟨s.pixels, false, s.draw_queue⟩).pixels a b := by
    rw [← h1]
    intro a b
    rfl
  have hs1ram : s1.ram = s.ram := by rw [← h1]
  have hs1i : s1.i = s.i := by rw [← h1]
  have hs1vx : s1.v x = s.v x := by
    rw [← h1]
    show updFn s.v 15 _ x = s.v x
    rw [updFn, if_neg hx15]
  have hs1vy : s1.v y = s.v y := by
    rw [← h1]
    show updFn s.v 15 _ y = s.v y
    rw [updFn, if_neg hy15]
  dsimp only at h2
  rw [hs1i, hs1vx, hs1vy, hs1ram, if_neg hoob] at h2
  simp only [Except.ok.injEq] at h2
  have hs2pix : ∀ a b, s2.pixels a b =
      (draw_loop s.ram s.i (s.v x) (s.v y) n
        ⟨s1.pixels, false, s1.draw_queue⟩).pixels a b := by
    rw [← h2]
    intro a b
    rfl
  have hs2v : s2.v 15 =
      (if (draw_loop s.ram s.i (s.v x) (s.v y) n
        ⟨s1.pixels, false, s1.draw_queue⟩).collision then 1 else 0) := by
    rw [← h2]
    simp [updFn]
  constructor
  · intro a b
    rw [hs2pix a b, draw_loop, draw_rows_prefix_pixels]
    dsimp only
    rw [hs1pix a b, draw_loop, draw_rows_prefix_pixels]
    dsimp only
    by_cases hD : s.v y ≤ b ∧ b - s.v y < n ∧ b < 32 ∧ s.v x ≤ a ∧ a - s.v x < 8 ∧
        a < 64 ∧ Nat.testBit (s.ram (s.i + (b - s.v y))) (7 - (a - s.v x))
    · rw [if_pos hD, if_pos hD, Pixel.flip_flip]
    · rw [if_neg hD, if_neg hD]
  · rw [hs2v]
    by_cases hc : (draw_loop s.ram s.i (s.v x) (s.v y) n
        ⟨s1.pixels, false, s1.draw_queue⟩).collision = true
    · rw [if_pos hc]
      constructor
      · intro _
        rw [draw_loop, draw_rows_prefix_collision] at hc
        dsimp only at hc
        rcases hc with hfalse | ⟨i, j, hi, hiy, hj, hjx, hbit, hpx⟩
        · exact absurd hfalse (by decide)
        · rw [hs1pix, draw_loop, draw_rows_prefix_pixels] at hpx
          dsimp only at hpx
          rw [if_pos ⟨by omega, by omega, by omega, by omega, by omega, by omega,
            by rw [show s.v y + i - s.v y = i from by omega,
              show s.v x + j - s.v x = j from by omega]; exact hbit⟩] at hpx
          rw [Pixel.flip_eq_on] at hpx
          exact ⟨i, j, hi, hiy, hj, hjx, hbit, hpx⟩
      · intro _
        rfl
    · rw [if_neg hc]
      constructor
      · intro h01
        exact absurd h01 (by decide)
      · rintro ⟨i, j, hi, hiy, hj, hjx, hbit, hpx⟩
        exfalso
        apply hc
        rw [draw_loop, draw_rows_prefix_collision]
        right
        refine ⟨i, j, hi, hiy, hj, hjx, hbit, ?_⟩
        show s1.pixels (s.v x + j) (s.v y + i) = Pixel.on
        rw [hs1pix, draw_loop, draw_rows_prefix_pixels]
        dsimp only
        rw [if_pos ⟨by omega, by omega, by omega, by omega, by omega, by omega,
          by rw [show s.v y + i - s.v y = i from by omega,
            show s.v x + j - s.v x = j from by omega]; exact hbit⟩]
        rw [Pixel.flip_eq_on]
        exact hpx

theorem C7_witness :
    c7s2.pixels 3 5 = testState.pixels 3 5 :=
  (C7_draw_twice_roundtrip ext0 testState 0 1 1 c7s1 c7s2 (by decide) (by decide)
    (by decide) (by decide) (by decide) (by rfl) (by rfl)).1 3 5

end Chip8Emu
